import Mathlib

/-!
# Verification of the VWAP intraday trading bot (backtesting core)

Shallow embedding of the repository's core modules:

* `trading_bot/utils/indicators.py` — `calculate_vwap` (pandas-ta `vwap`,
  daily anchor `VWAP_D`, typical price `hlc3`) and `calculate_ema`
  (pandas-ta `ema`, SMA-seeded).
* `trading_bot/core/strategy.py` — `calculate_position_size`,
  `check_entry_signal`, `check_exit_signal`.
* `trading_bot/backtesting/engine.py` — `Backtester`: `_prepare_data`
  (close-column 15-minute resample, EMA-column selection, forward-fill
  alignment), `run` loop, `_check_for_entry`, `_execute_trade`,
  `_manage_trade`, `_close_trade`.

Prices and volumes are modelled as rationals (`ℚ`); a pandas `NaN` cell is
modelled as `Option.none`; timestamps are natural numbers (minutes), and the
calendar day of a candle is carried explicitly as a natural number (pandas
derives it from the `DatetimeIndex`; the daily VWAP anchor groups by it).
-/

/-- One OHLCV candle: `day` is the calendar day of the timestamp (used by the
pandas-ta daily VWAP anchor), `ts` the timestamp in minutes. -/
structure Candle where
  day : ℕ
  ts : ℕ
  open_ : ℚ
  high : ℚ
  low : ℚ
  close : ℚ
  volume : ℚ
  deriving DecidableEq, Repr

/-- Default candle used for out-of-range `getD` indexing. -/
def cdflt : Candle := ⟨0, 0, 0, 0, 0, 0, 0⟩

/-- One row of the engine's 5-minute frame after `calculate_vwap`: OHLC data
plus the `VWAP` column (`none` models a NaN cell). -/
structure Row5 where
  ts : ℕ
  high : ℚ
  low : ℚ
  close : ℚ
  vwap : Option ℚ
  deriving DecidableEq, Repr

/-- Default row used for out-of-range `getD` indexing. -/
def rdflt : Row5 := ⟨0, 0, 0, 0, none⟩

/-- Minimum of a list of rationals (0 for the empty list, which is only ever
used on nonempty lists). -/
def listMin : List ℚ → ℚ
  | [] => 0
  | a :: l => l.foldl min a

/-- Maximum of a list of rationals (0 for the empty list). -/
def listMax : List ℚ → ℚ
  | [] => 0
  | a :: l => l.foldl max a

/-- Python's comparison `a < b` lifted to possibly-NaN values: any comparison
involving NaN is false. -/
def oLt (a b : Option ℚ) : Bool :=
  match a, b with
  | some x, some y => decide (x < y)
  | _, _ => false

/-- Python's two-argument `max(a, b)`: returns `b` exactly when `b > a`
(so `max(NaN, x) = NaN` and `max(x, NaN) = x`). -/
def pyMax (a b : Option ℚ) : Option ℚ :=
  if oLt a b then b else a

/-- Python's two-argument `min(a, b)`: returns `b` exactly when `b < a`. -/
def pyMin (a b : Option ℚ) : Option ℚ :=
  if oLt b a then b else a

/-- `reindex(index, method='ffill')` at a single label `t`: the value stored at
the most recent series label `≤ t`, `none` when no such label exists (and also
when the stored value itself is NaN, which propagates identically). -/
def alignedAt (s : List (ℕ × Option ℚ)) (t : ℕ) : Option ℚ :=
  ((s.filter (fun p => p.1 ≤ t)).getLast?).bind (fun p => p.2)

/-- Typical price `hlc3` used by pandas-ta `vwap`. -/
def typPrice (c : Candle) : ℚ :=
  (c.high + c.low + c.close) / 3

/-- `indicators.calculate_vwap` / pandas-ta `vwap` with the default daily
anchor (`VWAP_D`): at row `i`, the cumulative sum of `hlc3 · volume` over the
rows up to `i` **of the same calendar day**, divided by the matching
cumulative volume; NaN (`none`) when that cumulative volume is zero. -/
def calculate_vwap (d : List Candle) : List (Option ℚ) :=
  (List.range d.length).map (fun i =>
    let c := d.getD i cdflt
    let g := (d.take (i + 1)).filter (fun x => x.day = c.day)
    let den := (g.map (fun x => x.volume)).sum
    if den = 0 then none
    else some ((g.map (fun x => typPrice x * x.volume)).sum / den))

/-- One recursive EMA step list: `v_k = α·c_k + (1-α)·v_{k-1}`. -/
def emaFrom (α : ℚ) (prev : ℚ) : List ℚ → List ℚ
  | [] => []
  | c :: rest =>
    let v := α * c + (1 - α) * prev
    v :: emaFrom α v rest

/-- `indicators.calculate_ema` / pandas-ta `ema` with default SMA seeding on a
list of closes: the first `len - 1` cells are NaN, cell `len - 1` is the
simple average of the first `len` closes, and later cells follow the
recursion with `α = 2/(len+1)`.  When the series is shorter than `len`,
pandas-ta computes nothing (all cells undefined). -/
def emaList (closes : List ℚ) (len : ℕ) : List (Option ℚ) :=
  if closes.length < len then List.replicate closes.length none
  else
    let α : ℚ := 2 / (len + 1)
    let seed : ℚ := (closes.take len).sum / len
    (List.replicate (len - 1) (none : Option ℚ)) ++ [some seed] ++
      (emaFrom α seed (closes.drop len)).map some

/-- Running aggregate for one resample bucket. -/
structure Agg where
  hi : ℚ
  lo : ℚ
  last : ℚ
  vol : ℚ
  deriving DecidableEq, Repr

/-- Fold one more candle of a bucket into the aggregate built from the
bucket's close prices (the source resamples the `close` column only). -/
def aggStep (a : Agg) (c : Candle) : Agg :=
  ⟨max a.hi c.close, min a.lo c.close, c.close, a.vol + c.volume⟩

/-- The 15-minute bucket the engine builds for key `k` from its contributing
5-minute candles: `df_5min['close'].resample('15min').ohlc()` joined with the
volume sum — so every OHLC field is an aggregate of the **close** prices. -/
def bucketOf (k : ℕ) (g : List Candle) : Candle :=
  match g with
  | [] => cdflt
  | c0 :: rest =>
    let a := rest.foldl aggStep ⟨c0.close, c0.close, c0.close, c0.volume⟩
    ⟨c0.day, k * 15, c0.close, a.hi, a.lo, a.last, a.vol⟩

/-- The bucket keys (15-minute bins) present in a 5-minute series, in first
appearance order (= time order for sorted input). -/
def bucketKeys (d : List Candle) : List ℕ :=
  (d.map (fun c => c.ts / 15)).dedup

/-- The 5-minute candles contributing to bucket `k`. -/
def groupFor (d : List Candle) (k : ℕ) : List Candle :=
  d.filter (fun c => c.ts / 15 = k)

/-- `Backtester._prepare_data`'s 15-minute resample:
`ohlc_15min = df_5min['close'].resample('15min').ohlc()` joined with
`df_5min['volume'].resample('15min').sum()`. -/
def resample15 (d : List Candle) : List Candle :=
  (bucketKeys d).map (fun k => bucketOf k (groupFor d k))

/-- `strategy.calculate_position_size`: Python's `int()` truncates toward
zero. -/
def truncInt (q : ℚ) : ℤ :=
  if q < 0 then -(Int.floor (-q)) else Int.floor q

/-- `strategy.calculate_position_size(capital, risk_percent, sl_points,
lot_size)`: `max_loss = capital · risk/100`, `risk_per_lot = sl · lot`;
returns 0 when `risk_per_lot ≤ 0`, else `int(max_loss / risk_per_lot)`. -/
def calculate_position_size (capital risk_percent sl_points lot_size : ℚ) : ℤ :=
  let max_loss_per_trade := capital * (risk_percent / 100)
  let risk_per_lot := sl_points * lot_size
  if risk_per_lot ≤ 0 then 0
  else truncInt (max_loss_per_trade / risk_per_lot)

/-- `strategy.check_entry_signal(df_5min, df_15min_ema)`: guards on window
length and an all-NaN EMA input, forward-fills the EMA onto the 5-minute
index, rejects NaN at the current candle, then tests consolidation of the
previous close inside the VWAP/EMA band and breakdown of the current close
below both indicators.  NaN comparisons follow Python: always false. -/
def check_entry_signal (rows : List Row5) (ema : List (ℕ × Option ℚ)) : Bool :=
  if rows.length < 2 || ema.all (fun p => p.2.isNone) then false
  else
    let last := rows.getD (rows.length - 1) rdflt
    let prev := rows.getD (rows.length - 2) rdflt
    let alast := alignedAt ema last.ts
    let aprev := alignedAt ema prev.ts
    if alast.isNone || last.vwap.isNone then false
    else
      let upper_band := pyMax prev.vwap aprev
      let lower_band := pyMin prev.vwap aprev
      let consolidating := oLt lower_band (some prev.close) && oLt (some prev.close) upper_band
      let breakdown := oLt (some last.close) last.vwap && oLt (some last.close) alast
      consolidating && breakdown

/-- `strategy.check_exit_signal(df_15min)`: false on fewer than 3 candles,
else true iff the second-to-last candle's high strictly exceeds the
third-to-last candle's high (the forming candle is ignored). -/
def check_exit_signal (d : List Candle) : Bool :=
  if d.length < 3 then false
  else decide ((d.getD (d.length - 3) cdflt).high < (d.getD (d.length - 2) cdflt).high)

/-- The immutable backtest configuration (`Backtester.__init__` arguments). -/
structure Config where
  capital : ℚ
  risk_percent : ℚ
  sl_points : ℚ
  lot_size : ℚ
  deriving DecidableEq, Repr

/-- `Backtester.current_trade` while `status == 'open'`. -/
structure OpenTrade where
  entry_time : ℕ
  entry_price : ℚ
  position_size : ℤ
  sl_price : ℚ
  breakeven_price : ℚ
  sl_at_breakeven : Bool
  deriving DecidableEq, Repr

/-- A finalized entry of `Backtester.trades` (`status == 'closed'`). -/
structure ClosedTrade where
  entry_time : ℕ
  entry_price : ℚ
  position_size : ℤ
  exit_time : ℕ
  exit_price : ℚ
  reason : String
  pnl : ℚ
  deriving DecidableEq, Repr

/-- The engine's mutable state: `self.trades` plus `self.in_trade` /
`self.current_trade` collapsed into an `Option`. -/
structure EngineState where
  trades : List ClosedTrade
  open_trade : Option OpenTrade
  deriving DecidableEq, Repr

/-- `Backtester._close_trade(exit_price, exit_time, reason)`: computes
`pnl = (entry_price - exit_price) * position_size * lot_size` (short-trade
sign convention), appends the finalized trade and clears `in_trade`. -/
def close_trade (cfg : Config) (st : EngineState) (t : OpenTrade)
    (exit_price : ℚ) (exit_time : ℕ) (reason : String) : EngineState :=
  { trades := st.trades ++
      [{ entry_time := t.entry_time
         entry_price := t.entry_price
         position_size := t.position_size
         exit_time := exit_time
         exit_price := exit_price
         reason := reason
         pnl := (t.entry_price - exit_price) * (t.position_size : ℚ) * cfg.lot_size }]
    open_trade := none }

/-- `Backtester._manage_trade`: stop-loss first (`high >= sl_price`, fills at
the stop), else an optional breakeven arm (`low <= breakeven_price` while not
yet armed moves the stop to the entry), then the reverse-swing exit on the
truncated 15-minute window (fills at the candle close). -/
def manage_trade (cfg : Config) (st : EngineState) (t : OpenTrade)
    (candle : Row5) (s15 : List Candle) : EngineState :=
  if t.sl_price ≤ candle.high then
    close_trade cfg st t t.sl_price candle.ts "Stop-Loss Hit"
  else
    let t' := if !t.sl_at_breakeven && decide (candle.low ≤ t.breakeven_price)
      then { t with sl_price := t.entry_price, sl_at_breakeven := true }
      else t
    if check_exit_signal s15 then
      close_trade cfg st t' candle.close candle.ts "Reverse Swing Exit"
    else
      { st with open_trade := some t' }

/-- `Backtester._execute_trade(entry_candle)`: sizes the position; a zero
size leaves the engine flat, otherwise a short trade opens at the close with
the stop `sl_points` above and the breakeven trigger `sl_points` below. -/
def execute_trade (cfg : Config) (st : EngineState) (candle : Row5) : EngineState :=
  let position_size := calculate_position_size cfg.capital cfg.risk_percent cfg.sl_points cfg.lot_size
  if position_size = 0 then { st with open_trade := none }
  else
    let t : OpenTrade :=
      { entry_time := candle.ts
        entry_price := candle.close
        position_size := position_size
        sl_price := candle.close + cfg.sl_points
        breakeven_price := candle.close - cfg.sl_points
        sl_at_breakeven := false }
    { st with open_trade := some t }

/-- `Backtester._check_for_entry(current_data_slice)`: evaluates the entry
signal on the slice with the aligned-EMA series truncated to the slice's last
timestamp, and opens a trade when it fires. -/
def check_for_entry (cfg : Config) (st : EngineState) (slice : List Row5)
    (aligned : List (ℕ × Option ℚ)) : EngineState :=
  let ts := (slice.getD (slice.length - 1) rdflt).ts
  if check_entry_signal slice (aligned.filter (fun p => p.1 ≤ ts)) then
    execute_trade cfg st (slice.getD (slice.length - 1) rdflt)
  else st

/-- One iteration of the `Backtester.run` loop at index `i`: manage the open
trade against the latest candle and the truncated 15-minute window, or check
for a fresh entry on the slice up to `i`. -/
def stepAt (cfg : Config) (rows : List Row5) (df15 : List Candle)
    (aligned : List (ℕ × Option ℚ)) (i : ℕ) (st : EngineState) : EngineState :=
  let slice := rows.take (i + 1)
  let ts := (rows.getD i rdflt).ts
  let slice15 := df15.filter (fun c => c.ts ≤ ts)
  match st.open_trade with
  | some t => manage_trade cfg st t (rows.getD i rdflt) slice15
  | none => check_for_entry cfg st slice aligned

/-- The `for i in range(1, len(df_5min))` loop of `Backtester.run`, started
from the empty flat state. -/
def runLoop (cfg : Config) (rows : List Row5) (df15 : List Candle)
    (aligned : List (ℕ × Option ℚ)) : EngineState :=
  (List.range' 1 (rows.length - 1)).foldl
    (fun st i => stepAt cfg rows df15 aligned i st) ⟨[], none⟩

/-- The aligned series `Backtester._prepare_data` actually builds: it selects
`df_15min.columns[-2]`.  After `calculate_ema` appends `EMA_25` as the last
column of `[open, high, low, close, volume]`, `columns[-2]` is the **volume**
column, which is then forward-filled onto the 5-minute index.  (Modelled for
series with at least 25 higher-timeframe rows, where pandas-ta appends the
EMA column.) -/
def prepare_aligned (d : List Candle) : List (ℕ × Option ℚ) :=
  let b := resample15 d
  d.map (fun c => (c.ts, alignedAt (b.map (fun x => (x.ts, some x.volume))) c.ts))

/-- The aligned series the spec describes: the 15-minute `EMA_25` column
(pandas-ta SMA-seeded EMA of the resampled closes) forward-filled onto the
5-minute index. -/
def ema_aligned (d : List Candle) : List (ℕ × Option ℚ) :=
  let b := resample15 d
  let e := emaList (b.map (fun x => x.close)) 25
  d.map (fun c => (c.ts, alignedAt ((b.map (fun x => x.ts)).zip e) c.ts))

/-- The 5-minute rows the engine iterates over: the raw candles joined with
the `VWAP` column produced by `calculate_vwap`. -/
def mkRows (d : List Candle) : List Row5 :=
  (List.range d.length).map (fun i =>
    let c := d.getD i cdflt
    ⟨c.ts, c.high, c.low, c.close, (calculate_vwap d).getD i none⟩)

/-- `Backtester.run`, including `_prepare_data`.  When the data provider
returns an empty series, `_prepare_data` prints the no-data message and
returns **without assigning** `self.df_5min`; the subsequent
`if self.df_5min is None` test in `run` then raises `AttributeError`, which
the embedding surfaces as an `Except.error`. -/
def run (cfg : Config) (data : List Candle) : Except String EngineState :=
  if data.isEmpty then
    Except.error "AttributeError: Backtester object has no attribute df_5min"
  else
    Except.ok (runLoop cfg (mkRows data) (resample15 data) (prepare_aligned data))

/-! ## Helper lemmas -/

theorem foldl_min_le_init (l : List ℚ) (a : ℚ) : l.foldl min a ≤ a := by
  induction l generalizing a with
  | nil => exact le_refl a
  | cons x xs ih => exact le_trans (ih (min a x)) (min_le_left a x)

theorem foldl_min_le_mem (l : List ℚ) (a x : ℚ) (hx : x ∈ l) : l.foldl min a ≤ x := by
  induction l generalizing a with
  | nil => cases hx
  | cons y ys ih =>
    rcases List.mem_cons.1 hx with h | h
    · subst h
      exact le_trans (foldl_min_le_init ys (min a x)) (min_le_right a x)
    · exact ih (min a y) h

theorem listMin_le_mem (l : List ℚ) (x : ℚ) (hx : x ∈ l) : listMin l ≤ x := by
  cases l with
  | nil => cases hx
  | cons a t =>
    rcases List.mem_cons.1 hx with h | h
    · subst h
      exact foldl_min_le_init t x
    · exact foldl_min_le_mem t a x h

theorem init_le_foldl_max (l : List ℚ) (a : ℚ) : a ≤ l.foldl max a := by
  induction l generalizing a with
  | nil => exact le_refl a
  | cons x xs ih => exact le_trans (le_max_left a x) (ih (max a x))

theorem mem_le_foldl_max (l : List ℚ) (a x : ℚ) (hx : x ∈ l) : x ≤ l.foldl max a := by
  induction l generalizing a with
  | nil => cases hx
  | cons y ys ih =>
    rcases List.mem_cons.1 hx with h | h
    · subst h
      exact le_trans (le_max_right a x) (init_le_foldl_max ys (max a x))
    · exact ih (max a y) h

theorem mem_le_listMax (l : List ℚ) (x : ℚ) (hx : x ∈ l) : x ≤ listMax l := by
  cases l with
  | nil => cases hx
  | cons a t =>
    rcases List.mem_cons.1 hx with h | h
    · subst h
      exact init_le_foldl_max t x
    · exact mem_le_foldl_max t a x h

theorem getD_map_range {α : Type} (f : ℕ → α) (n i : ℕ) (dd : α) (h : i < n) :
    ((List.range n).map f).getD i dd = f i := by
  rw [List.getD_eq_getElem?_getD, List.getElem?_map, List.getElem?_range h]
  rfl

/-! ## C5 — position sizing -/

/-- C5 counterexample: the claim that `calculate_position_size` returns 0
whenever `sl_points ≤ 0` or `lot_size ≤ 0`, is non-negative for every input
and floors the quotient is false: two negative risk parameters give a
positive size, and negative capital gives a negative size (Python `int()`
truncates toward zero, `-800/750` ↦ `-1`, whereas the floor is `-2`). -/
theorem position_size_claim_cex :
    calculate_position_size 100000 (4/5) (-50) (-15) = 1 ∧
    calculate_position_size (-100000) (4/5) 50 15 = -1 ∧
    ¬ (0 ≤ calculate_position_size (-100000) (4/5) 50 15) ∧
    calculate_position_size (-100000) (4/5) 50 15 ≠
      Int.floor ((-100000 : ℚ) * ((4/5) / 100) / (50 * 15)) := by
  have h1 : calculate_position_size 100000 (4/5) (-50) (-15) = 1 := by
    unfold calculate_position_size truncInt
    norm_num
  have h2 : calculate_position_size (-100000) (4/5) 50 15 = -1 := by
    unfold calculate_position_size truncInt
    norm_num
  have h3 : Int.floor ((-100000 : ℚ) * ((4/5) / 100) / (50 * 15)) = -2 := by
    rw [show ((-100000 : ℚ) * ((4/5) / 100) / (50 * 15)) = -16/15 by norm_num]
    norm_num
  refine ⟨h1, h2, by rw [h2]; norm_num, by rw [h2, h3]; norm_num⟩

/-- C5 (amended): `calculate_position_size` returns 0 when
`sl_points · lot_size ≤ 0`; otherwise it returns the quotient
`(capital · risk_percent/100) / (sl_points · lot_size)` truncated toward
zero, which — whenever `capital · risk_percent ≥ 0`, in particular for
non-negative capital and risk — is non-negative and coincides with the
floor. -/
theorem position_size_amended (c r s l : ℚ) :
    (s * l ≤ 0 → calculate_position_size c r s l = 0) ∧
    (0 < s * l →
      calculate_position_size c r s l = truncInt (c * (r / 100) / (s * l)) ∧
      (0 ≤ c * r →
        0 ≤ calculate_position_size c r s l ∧
        calculate_position_size c r s l = Int.floor (c * (r / 100) / (s * l)))) := by
  constructor
  · intro h
    simp only [calculate_position_size, if_pos h]
  · intro h
    have hn : ¬ s * l ≤ 0 := not_le.2 h
    have hq : (0 : ℚ) ≤ c * (r / 100) / (s * l) → True := fun _ => trivial
    refine ⟨by simp only [calculate_position_size, if_neg hn], ?_⟩
    intro hcr
    have hnum : (0 : ℚ) ≤ c * (r / 100) := by
      have : c * (r / 100) = (c * r) / 100 := by ring
      rw [this]
      positivity
    have hqnn : (0 : ℚ) ≤ c * (r / 100) / (s * l) := div_nonneg hnum (le_of_lt h)
    have htr : truncInt (c * (r / 100) / (s * l)) = Int.floor (c * (r / 100) / (s * l)) := by
      simp only [truncInt, if_neg (not_lt.2 hqnn)]
    constructor
    · simp only [calculate_position_size, if_neg hn, htr]
      exact Int.floor_nonneg.2 hqnn
    · simp only [calculate_position_size, if_neg hn, htr]

/-- Witness for `position_size_amended` at the spec's example scenario 3
(`capital = 100000`, `risk = 0.8 %`, `sl = 50`, `lot = 15`) and at a
degenerate stop distance. -/
theorem position_size_amended_witness :
    calculate_position_size 1 1 0 1 = 0 ∧
    0 ≤ calculate_position_size 100000 (4/5) 50 15 :=
  ⟨(position_size_amended 1 1 0 1).1 (by norm_num),
   (((position_size_amended 100000 (4/5) 50 15).2 (by norm_num)).2 (by norm_num)).1⟩

/-! ## C2 — empty data aborts -/

/-- C2: for every configuration, when the data provider returns an empty
series the backtest run raises (`AttributeError`: `_prepare_data` returns
early without assigning `self.df_5min`, which `run` then reads) instead of
aborting gracefully with no trades. -/
theorem run_empty_data_raises (cfg : Config) :
    run cfg [] =
      Except.error "AttributeError: Backtester object has no attribute df_5min" := rfl

/-! ## C7 — exit signal -/

/-- C7: `check_exit_signal` is false on windows of fewer than 3 candles, on
longer windows fires iff the second-to-last high strictly exceeds the
third-to-last high, and never depends on the content of the most recent
(still-forming) candle. -/
theorem exit_signal_spec (d : List Candle) :
    (check_exit_signal d = true ↔
      3 ≤ d.length ∧
      (d.getD (d.length - 3) cdflt).high < (d.getD (d.length - 2) cdflt).high) ∧
    ∀ c c' : Candle, check_exit_signal (d ++ [c]) = check_exit_signal (d ++ [c']) := by
  constructor
  · unfold check_exit_signal
    by_cases h : d.length < 3
    · simp only [if_pos h]
      simp
      omega
    · simp only [if_neg h, decide_eq_true_eq]
      constructor
      · intro hlt
        exact ⟨by omega, hlt⟩
      · intro hlt
        exact hlt.2
  · intro c c'
    unfold check_exit_signal
    by_cases h : d.length < 2
    · have h1 : (d ++ [c]).length < 3 := by simp; omega
      have h2 : (d ++ [c']).length < 3 := by simp; omega
      rw [if_pos h1, if_pos h2]
    · have h1 : ¬ (d ++ [c]).length < 3 := by simp; omega
      have h2 : ¬ (d ++ [c']).length < 3 := by simp; omega
      rw [if_neg h1, if_neg h2]
      have hl : (d ++ [c]).length = d.length + 1 := by simp
      have hl' : (d ++ [c']).length = d.length + 1 := by simp
      have e3 : d.length + 1 - 3 < d.length := by omega
      have e2 : d.length + 1 - 2 < d.length := by omega
      have g1 : ∀ x : Candle, (d ++ [x]).getD (d.length + 1 - 3) cdflt = d.getD (d.length + 1 - 3) cdflt := by
        intro x
        rw [List.getD_eq_getElem?_getD, List.getD_eq_getElem?_getD,
          List.getElem?_append_left e3]
      have g2 : ∀ x : Candle, (d ++ [x]).getD (d.length + 1 - 2) cdflt = d.getD (d.length + 1 - 2) cdflt := by
        intro x
        rw [List.getD_eq_getElem?_getD, List.getD_eq_getElem?_getD,
          List.getElem?_append_left e2]
      rw [hl, hl', g1 c, g1 c', g2 c, g2 c']

/-! ## C3 — 15-minute resampling -/

theorem bucket_fold (rest : List Candle) (a : Agg) :
    rest.foldl aggStep a =
      ⟨(rest.map Candle.close).foldl max a.hi,
       (rest.map Candle.close).foldl min a.lo,
       (rest.map Candle.close).getLastD a.last,
       a.vol + (rest.map Candle.volume).sum⟩ := by
  induction rest generalizing a with
  | nil => cases a; simp
  | cons c cs ih =>
    simp only [List.foldl_cons, List.map_cons, ih, aggStep, List.getLastD_cons,
      List.sum_cons]
    congr 1
    ring

/-- C3 counterexample: on a bucket of two candles with closes `2, 3` but highs
`10, 11`, the engine's resample sets the bucket high to the maximum **close**
(3), not the maximum high (11) the claim demands (the source resamples
`df_5min['close']` only). -/
theorem resample_claim_cex :
    ((resample15 [⟨0, 0, 1, 10, 0, 2, 1⟩, ⟨0, 5, 2, 11, 1, 3, 1⟩]).getD 0 cdflt).high = 3 ∧
    listMax ([(⟨0, 0, 1, 10, 0, 2, 1⟩ : Candle), ⟨0, 5, 2, 11, 1, 3, 1⟩].map Candle.high) = 11 ∧
    ((resample15 [⟨0, 0, 1, 10, 0, 2, 1⟩, ⟨0, 5, 2, 11, 1, 3, 1⟩]).getD 0 cdflt).high ≠
      listMax ([(⟨0, 0, 1, 10, 0, 2, 1⟩ : Candle), ⟨0, 5, 2, 11, 1, 3, 1⟩].map Candle.high) := by
  refine ⟨rfl, ?_, ?_⟩
  · show max (11 : ℚ) 11 = 11
    norm_num
  · show (3 : ℚ) ≠ max 11 11
    norm_num

/-- C3 (amended): every bucket the engine's resample produces aggregates the
**close prices** of its contributing lower-timeframe candles — its open is
their first close, its high the maximum close, its low the minimum close, its
close their last close — and its volume is the sum of their volumes. -/
theorem resample_amended (d : List Candle) (b : Candle) (hb : b ∈ resample15 d) :
    ∃ g : List Candle, g ≠ [] ∧ g.Sublist d ∧
      b.open_ = (g.map Candle.close).headI ∧
      b.high = listMax (g.map Candle.close) ∧
      b.low = listMin (g.map Candle.close) ∧
      b.close = (g.map Candle.close).getLastD 0 ∧
      b.volume = (g.map Candle.volume).sum := by
  obtain ⟨k, hk, hbk⟩ := List.mem_map.1 hb
  refine ⟨groupFor d k, ?_, List.filter_sublist d, ?_⟩
  · obtain ⟨c, hc, hck⟩ := List.mem_map.1 (List.mem_dedup.1 hk)
    intro hnil
    have : c ∈ groupFor d k := by
      simp only [groupFor, List.mem_filter, hc, true_and]
      exact decide_eq_true hck
    rw [hnil] at this
    cases this
  · cases hg : groupFor d k with
    | nil =>
      obtain ⟨c, hc, hck⟩ := List.mem_map.1 (List.mem_dedup.1 hk)
      have : c ∈ groupFor d k := by
        simp only [groupFor, List.mem_filter, hc, true_and]
        exact decide_eq_true hck
      rw [hg] at this
      cases this
    | cons c0 rest =>
      subst hbk
      rw [hg]
      simp only [bucketOf, bucket_fold, List.map_cons, List.headI, listMax, listMin,
        List.getLastD_cons, List.sum_cons]
      exact ⟨trivial, trivial, trivial, trivial, trivial⟩

/-- Witness for `resample_amended` at the counterexample input. -/
theorem resample_amended_witness :
    (⟨0, 0, 2, 3, 2, 3, 2⟩ : Candle) ∈ resample15 [⟨0, 0, 1, 10, 0, 2, 1⟩, ⟨0, 5, 2, 11, 1, 3, 1⟩] ∧
    ∃ g : List Candle, g ≠ [] ∧ g.Sublist [⟨0, 0, 1, 10, 0, 2, 1⟩, ⟨0, 5, 2, 11, 1, 3, 1⟩] ∧
      (⟨0, 0, 2, 3, 2, 3, 2⟩ : Candle).open_ = (g.map Candle.close).headI ∧
      (⟨0, 0, 2, 3, 2, 3, 2⟩ : Candle).high = listMax (g.map Candle.close) ∧
      (⟨0, 0, 2, 3, 2, 3, 2⟩ : Candle).low = listMin (g.map Candle.close) ∧
      (⟨0, 0, 2, 3, 2, 3, 2⟩ : Candle).close = (g.map Candle.close).getLastD 0 ∧
      (⟨0, 0, 2, 3, 2, 3, 2⟩ : Candle).volume = (g.map Candle.volume).sum := by
  have he : resample15 [⟨0, 0, 1, 10, 0, 2, 1⟩, ⟨0, 5, 2, 11, 1, 3, 1⟩] =
      [⟨0, 0, 2, 3, 2, 3, 2⟩] := by
    simp [resample15, bucketKeys, groupFor, bucketOf, aggStep, List.dedup, List.filter]
    norm_num
  have hm : (⟨0, 0, 2, 3, 2, 3, 2⟩ : Candle) ∈
      resample15 [⟨0, 0, 1, 10, 0, 2, 1⟩, ⟨0, 5, 2, 11, 1, 3, 1⟩] := by
    rw [he]
    exact List.mem_singleton.2 rfl
  exact ⟨hm, resample_amended _ _ hm⟩

/-! ## C1 — aligned indicator series -/

/-- 25 five-minute candles, one per 15-minute bucket (timestamps 0, 15, …,
360 minutes), all prices 100 and all volumes 5: enough higher-timeframe rows
for pandas-ta to append the `EMA_25` column. -/
def c1data : List Candle := (List.range 25).map (fun i => ⟨0, 15 * i, 100, 100, 100, 100, 5⟩)

theorem c1_resample_fixed : resample15 c1data = c1data := by decide

theorem c1_ema_column : emaList (c1data.map (fun x => x.close)) 25 =
    List.replicate 24 none ++ [some 100] := by
  have hc : c1data.map (fun x => x.close) = List.replicate 25 (100 : ℚ) := by decide
  rw [hc]
  unfold emaList
  simp [List.sum_replicate, emaFrom]
  norm_num

/-- C1: the series `_prepare_data` aligns onto the 5-minute index is **not**
the 15-minute EMA.  `calculate_ema` appends `EMA_25` as the last column of
`df_15min`, so `df_15min.columns[-2]` — the column the code selects with the
comment "EMA is the second to last column" — is the `volume` column.  On
`c1data` the aligned value at the final timestamp is the bucket volume `5`,
while the forward-filled 15-minute EMA there is `100`. -/
theorem prepare_data_aligns_volume_not_ema :
    (prepare_aligned c1data).getD 24 (0, none) = (360, some 5) ∧
    (ema_aligned c1data).getD 24 (0, none) = (360, some 100) ∧
    ((prepare_aligned c1data).getD 24 (0, none)).2 ≠
      ((ema_aligned c1data).getD 24 (0, none)).2 := by
  have h2 : (ema_aligned c1data).getD 24 (0, none) = (360, some 100) := by
    show ((fun d : List Candle =>
      (d.map (fun c => (c.ts, alignedAt
        (((resample15 d).map (fun x => x.ts)).zip
          (emaList ((resample15 d).map (fun x => x.close)) 25)) c.ts)))) c1data).getD 24 (0, none) =
      (360, some 100)
    simp only [c1_resample_fixed, c1_ema_column]
    decide
  refine ⟨by decide, h2, ?_⟩
  rw [h2]
  decide

/-! ## C6 — VWAP -/

theorem weighted_sum_lower (g : List Candle) (lo : ℚ)
    (h : ∀ c ∈ g, 0 ≤ c.volume ∧ lo ≤ typPrice c) :
    lo * (g.map (fun x => x.volume)).sum ≤ (g.map (fun x => typPrice x * x.volume)).sum := by
  induction g with
  | nil => simp
  | cons c cs ih =>
    simp only [List.map_cons, List.sum_cons, mul_add]
    have hc := h c (List.mem_cons_self c cs)
    have h1 : lo * c.volume ≤ typPrice c * c.volume :=
      mul_le_mul_of_nonneg_right hc.2 hc.1
    have h2 := ih (fun x hx => h x (List.mem_cons_of_mem c hx))
    linarith

theorem weighted_sum_upper (g : List Candle) (hiq : ℚ)
    (h : ∀ c ∈ g, 0 ≤ c.volume ∧ typPrice c ≤ hiq) :
    (g.map (fun x => typPrice x * x.volume)).sum ≤ hiq * (g.map (fun x => x.volume)).sum := by
  induction g with
  | nil => simp
  | cons c cs ih =>
    simp only [List.map_cons, List.sum_cons, mul_add]
    have hc := h c (List.mem_cons_self c cs)
    have h1 : typPrice c * c.volume ≤ hiq * c.volume :=
      mul_le_mul_of_nonneg_right hc.2 hc.1
    have h2 := ih (fun x hx => h x (List.mem_cons_of_mem c hx))
    linarith

/-- C6 counterexample, three parts.  (1) The VWAP is anchored per calendar
day (pandas-ta `VWAP_D`), not cumulative over the full series: on a two-day
series it restarts, giving 20 where the full-series formula gives 15.
(2) With a negative volume the defined value −22 escapes `[min low, max
high] = [0, 10]`.  (3) With a malformed candle (close above high) the value
37 exceeds the maximum high 6 even at positive volume — so the claim's
unconditional bound fails. -/
theorem vwap_claim_cex :
    (calculate_vwap [⟨0, 0, 10, 10, 10, 10, 1⟩, ⟨1, 100, 10, 20, 20, 20, 1⟩]).getD 1 none = some 20 ∧
    ((10 : ℚ) * 1 + 20 * 1) / (1 + 1) = 15 ∧ (20 : ℚ) ≠ 15 ∧
    (calculate_vwap [⟨0, 0, 10, 10, 0, 5, 1⟩, ⟨0, 5, 10, 10, 6, 8, -(9/10)⟩]).getD 1 none = some (-22) ∧
    ¬ (listMin ([(⟨0, 0, 10, 10, 0, 5, 1⟩ : Candle), ⟨0, 5, 10, 10, 6, 8, -(9/10)⟩].map Candle.low) ≤ -22) ∧
    (calculate_vwap [⟨0, 0, 6, 6, 5, 100, 1⟩]).getD 0 none = some 37 ∧
    ¬ ((37 : ℚ) ≤ listMax ([(⟨0, 0, 6, 6, 5, 100, 1⟩ : Candle)].map Candle.high)) := by
  refine ⟨?_, by norm_num, by norm_num, ?_, ?_, ?_, ?_⟩
  · simp [calculate_vwap, typPrice, List.filter]
    norm_num
  · simp [calculate_vwap, typPrice, List.filter]
    norm_num
  · simp [listMin]
  · simp [calculate_vwap, typPrice, List.filter]
    norm_num
  · simp [listMax]
    norm_num

/-- C6 (amended): `calculate_vwap` assigns to candle `i` the cumulative
volume-weighted average of the typical price `(high+low+close)/3` over the
candles **of the same calendar day** up to `i` (pandas-ta's daily `VWAP_D`
anchor — the series restarts at each day boundary, it is not cumulative over
the full series), undefined exactly when that day's cumulative volume is
zero; and for series with non-negative volumes and well-formed candles
(`low ≤ close ≤ high`) every defined value lies within
`[min(low), max(high)]` of the candles seen so far. -/
theorem vwap_amended (d : List Candle) (i : ℕ) (hi : i < d.length)
    (hvol : ∀ c ∈ d, 0 ≤ c.volume)
    (hshape : ∀ c ∈ d, c.low ≤ c.close ∧ c.close ≤ c.high) :
    ((calculate_vwap d).getD i none = none ↔
      (((d.take (i + 1)).filter (fun x => x.day = (d.getD i cdflt).day)).map (fun x => x.volume)).sum = 0) ∧
    ∀ v, (calculate_vwap d).getD i none = some v →
      v = (((d.take (i + 1)).filter (fun x => x.day = (d.getD i cdflt).day)).map (fun x => typPrice x * x.volume)).sum /
          (((d.take (i + 1)).filter (fun x => x.day = (d.getD i cdflt).day)).map (fun x => x.volume)).sum ∧
      listMin ((d.take (i + 1)).map Candle.low) ≤ v ∧
      v ≤ listMax ((d.take (i + 1)).map Candle.high) := by
  have hval : (calculate_vwap d).getD i none =
      (if (((d.take (i + 1)).filter (fun x => x.day = (d.getD i cdflt).day)).map (fun x => x.volume)).sum = 0 then none
       else some ((((d.take (i + 1)).filter (fun x => x.day = (d.getD i cdflt).day)).map (fun x => typPrice x * x.volume)).sum /
         (((d.take (i + 1)).filter (fun x => x.day = (d.getD i cdflt).day)).map (fun x => x.volume)).sum)) := by
    unfold calculate_vwap
    exact getD_map_range _ _ _ _ hi
  set g := (d.take (i + 1)).filter (fun x => x.day = (d.getD i cdflt).day) with hgdef
  have hmemd : ∀ c ∈ g, c ∈ d := fun c hc =>
    List.mem_of_mem_take (List.mem_filter.1 hc).1
  have hmemtake : ∀ c ∈ g, c ∈ d.take (i + 1) := fun c hc => (List.mem_filter.1 hc).1
  by_cases hden : (g.map (fun x => x.volume)).sum = 0
  · rw [hval, if_pos hden]
    exact ⟨by simp [hden], fun v hv => by cases hv⟩
  · rw [hval, if_neg hden]
    have hnn : 0 ≤ (g.map (fun x => x.volume)).sum := by
      refine List.sum_nonneg ?_
      intro a ha
      obtain ⟨c, hc, rfl⟩ := List.mem_map.1 ha
      exact hvol c (hmemd c hc)
    have hpos : 0 < (g.map (fun x => x.volume)).sum := lt_of_le_of_ne hnn (Ne.symm hden)
    refine ⟨by simp [hden], ?_⟩
    intro v hv
    have hveq : v = (g.map (fun x => typPrice x * x.volume)).sum / (g.map (fun x => x.volume)).sum :=
      (Option.some_injective _ hv).symm
    refine ⟨hveq, ?_, ?_⟩
    · rw [hveq, le_div_iff₀ hpos]
      refine weighted_sum_lower g _ ?_
      intro c hc
      refine ⟨hvol c (hmemd c hc), ?_⟩
      have h1 : listMin ((d.take (i + 1)).map Candle.low) ≤ c.low :=
        listMin_le_mem _ _ (List.mem_map_of_mem Candle.low (hmemtake c hc))
      have h2 := hshape c (hmemd c hc)
      have h3 : c.low ≤ typPrice c := by
        unfold typPrice
        have := h2.1
        have := h2.2
        linarith
      linarith
    · rw [hveq, div_le_iff₀ hpos]
      refine weighted_sum_upper g _ ?_
      intro c hc
      refine ⟨hvol c (hmemd c hc), ?_⟩
      have h1 : c.high ≤ listMax ((d.take (i + 1)).map Candle.high) :=
        mem_le_listMax _ _ (List.mem_map_of_mem Candle.high (hmemtake c hc))
      have h2 := hshape c (hmemd c hc)
      have h3 : typPrice c ≤ c.high := by
        unfold typPrice
        have := h2.1
        have := h2.2
        linarith
      linarith

/-- Witness for `vwap_amended` on a two-candle single-day series:
VWAP value `(5·1 + 8·1)/2 = 13/2` stays within `[0, 10]`. -/
theorem vwap_amended_witness :
    (calculate_vwap [⟨0, 0, 10, 10, 0, 5, 1⟩, ⟨0, 5, 10, 10, 6, 8, 1⟩]).getD 1 none = some (13/2) ∧
    listMin ((([⟨0, 0, 10, 10, 0, 5, 1⟩, ⟨0, 5, 10, 10, 6, 8, 1⟩] : List Candle).take 2).map Candle.low) ≤ 13/2 ∧
    (13/2 : ℚ) ≤ listMax ((([⟨0, 0, 10, 10, 0, 5, 1⟩, ⟨0, 5, 10, 10, 6, 8, 1⟩] : List Candle).take 2).map Candle.high) := by
  have hv : (calculate_vwap [⟨0, 0, 10, 10, 0, 5, 1⟩, ⟨0, 5, 10, 10, 6, 8, 1⟩]).getD 1 none = some (13/2) := by
    simp [calculate_vwap, typPrice, List.filter]
    norm_num
  have h := (vwap_amended [⟨0, 0, 10, 10, 0, 5, 1⟩, ⟨0, 5, 10, 10, 6, 8, 1⟩] 1 (by norm_num)
    (by decide) (by decide)).2 (13/2) hv
  exact ⟨hv, h.2.1, h.2.2⟩

/-! ## C4 — entry signal -/

theorem oLt_none_right (a : Option ℚ) : oLt a none = false := by cases a <;> rfl

theorem oLt_none_left (b : Option ℚ) : oLt none b = false := by cases b <;> rfl

theorem pyMin_some_some (a b : ℚ) : pyMin (some a) (some b) = some (min a b) := by
  unfold pyMin oLt
  split_ifs with h
  · simp at h
    rw [min_eq_right (le_of_lt h)]
  · simp at h
    rw [min_eq_left h]

theorem pyMax_some_some (a b : ℚ) : pyMax (some a) (some b) = some (max a b) := by
  unfold pyMax oLt
  split_ifs with h
  · simp at h
    rw [max_eq_right (le_of_lt h)]
  · simp at h
    rw [max_eq_left h]

theorem alignedAt_all_none (s : List (ℕ × Option ℚ)) (t : ℕ)
    (h : ∀ p ∈ s, p.2 = none) : alignedAt s t = none := by
  unfold alignedAt
  cases hg : (s.filter (fun p => p.1 ≤ t)).getLast? with
  | none => rfl
  | some p =>
    have hp : p ∈ s := (List.mem_filter.1 (List.mem_of_mem_getLast? (by rw [hg]; rfl))).1
    simp [h p hp]

/-- C4: `check_entry_signal` returns true iff the window has at least 2
candles, VWAP and (aligned) EMA are defined at the last two candles, the
previous close lies strictly inside the band
`[min(VWAP_prev, EMA_prev), max(VWAP_prev, EMA_prev)]`, and the current
close is strictly below both the current VWAP and the current aligned EMA;
in particular it is false on short windows or undefined indicator values. -/
theorem entry_signal_iff (rows : List Row5) (ema : List (ℕ × Option ℚ)) :
    check_entry_signal rows ema = true ↔
    (2 ≤ rows.length ∧
     ∃ vp ep vc ec : ℚ,
       (rows.getD (rows.length - 2) rdflt).vwap = some vp ∧
       alignedAt ema (rows.getD (rows.length - 2) rdflt).ts = some ep ∧
       (rows.getD (rows.length - 1) rdflt).vwap = some vc ∧
       alignedAt ema (rows.getD (rows.length - 1) rdflt).ts = some ec ∧
       min vp ep < (rows.getD (rows.length - 2) rdflt).close ∧
       (rows.getD (rows.length - 2) rdflt).close < max vp ep ∧
       (rows.getD (rows.length - 1) rdflt).close < vc ∧
       (rows.getD (rows.length - 1) rdflt).close < ec) := by
  unfold check_entry_signal
  by_cases hlen : rows.length < 2
  · have hg : (decide (rows.length < 2) || ema.all (fun p => p.2.isNone)) = true := by
      simp [hlen]
    rw [if_pos hg]
    simp only [Bool.false_eq_true, false_iff]
    rintro ⟨h2, -⟩
    omega
  · by_cases hall : ema.all (fun p => p.2.isNone) = true
    · have hg : (decide (rows.length < 2) || ema.all (fun p => p.2.isNone)) = true := by
        simp [hall]
      rw [if_pos hg]
      simp only [Bool.false_eq_true, false_iff]
      rintro ⟨-, vp, ep, vc, ec, -, -, -, hec, -, -, -, -⟩
      have hnone : ∀ p ∈ ema, p.2 = none := by
        intro p hp
        have := List.all_eq_true.1 hall p hp
        exact Option.isNone_iff_eq_none.1 (by simpa using this)
      rw [alignedAt_all_none ema _ hnone] at hec
      cases hec
    · have hg : (decide (rows.length < 2) || ema.all (fun p => p.2.isNone)) = false := by
        simp only [Bool.or_eq_false_iff]
        exact ⟨by simpa using hlen, by simpa using hall⟩
      rw [if_neg (by rw [hg]; exact Bool.false_ne_true)]
      by_cases hinner : ((alignedAt ema (rows.getD (rows.length - 1) rdflt).ts).isNone ||
          (rows.getD (rows.length - 1) rdflt).vwap.isNone) = true
      · rw [if_pos hinner]
        simp only [Bool.false_eq_true, false_iff]
        rintro ⟨-, vp, ep, vc, ec, -, -, hvc, hec, -, -, -, -⟩
        rcases Bool.or_eq_true_iff.1 hinner with h | h
        · rw [hec] at h
          cases h
        · rw [hvc] at h
          cases h
      · rw [if_neg hinner]
        have hnot := Bool.or_eq_false_iff.1 ((Bool.not_eq_true _).mp hinner)
        cases hec0 : alignedAt ema (rows.getD (rows.length - 1) rdflt).ts with
        | none =>
          rw [hec0] at hnot
          simp at hnot
        | some ec0 =>
        cases hvc0 : (rows.getD (rows.length - 1) rdflt).vwap with
        | none =>
          rw [hvc0] at hnot
          simp at hnot
        | some vc0 =>
        cases hpv : (rows.getD (rows.length - 2) rdflt).vwap with
        | none =>
          cases hap : alignedAt ema (rows.getD (rows.length - 2) rdflt).ts with
          | none =>
            simp only [hpv, hap]
            constructor
            · intro h
              simp [pyMin, pyMax, oLt] at h
            · rintro ⟨-, vp, ep, vc, ec, hvp, -⟩
              cases hvp
          | some ep0 =>
            simp only [hpv, hap]
            constructor
            · intro h
              simp [pyMin, pyMax, oLt] at h
            · rintro ⟨-, vp, ep, vc, ec, hvp, -⟩
              cases hvp
        | some vp0 =>
          cases hap : alignedAt ema (rows.getD (rows.length - 2) rdflt).ts with
          | none =>
            simp only [hpv, hap]
            constructor
            · intro h
              simp only [pyMin, pyMax, oLt_none_left, oLt_none_right, Bool.false_eq_true,
                if_false, Bool.and_eq_true] at h
              simp only [oLt, decide_eq_true_eq] at h
              exact absurd (lt_trans h.1.1 h.1.2) (lt_irrefl _)
            · rintro ⟨-, vp, ep, vc, ec, -, hep, -⟩
              cases hep
          | some ep0 =>
            simp only [pyMin_some_some, pyMax_some_some, oLt, Bool.and_eq_true,
              decide_eq_true_eq]
            constructor
            · rintro ⟨⟨h1, h2⟩, h3, h4⟩
              exact ⟨by omega, vp0, ep0, vc0, ec0, rfl, rfl, rfl, rfl, h1, h2, h3, h4⟩
            · rintro ⟨-, vp, ep, vc, ec, hvp, hep, hvc, hec, h5, h6, h7, h8⟩
              cases hvp
              cases hep
              cases hvc
              cases hec
              exact ⟨⟨h5, h6⟩, h7, h8⟩

/-! ## C8 — closing a trade -/

/-- C8: every close of an open trade appends exactly one finalized trade with
`pnl = (entry_price − exit_price) · position_size · lot_size` and returns the
engine to the flat state; with positive size and lot size,
`exit_price < entry_price` gives `pnl > 0` (short-trade sign convention).
The last conjunct covers every close performed by `_manage_trade`. -/
theorem close_trade_spec (cfg : Config) (st : EngineState) (t : OpenTrade)
    (p : ℚ) (time : ℕ) (r : String) :
    (close_trade cfg st t p time r).open_trade = none ∧
    (close_trade cfg st t p time r).trades =
      st.trades ++ [⟨t.entry_time, t.entry_price, t.position_size, time, p, r,
        (t.entry_price - p) * (t.position_size : ℚ) * cfg.lot_size⟩] ∧
    (p < t.entry_price → 0 < t.position_size → 0 < cfg.lot_size →
      ∀ c, ((close_trade cfg st t p time r).trades).getLast? = some c → 0 < c.pnl) ∧
    (∀ candle s15, (manage_trade cfg st t candle s15).open_trade = none →
      ∃ c, (manage_trade cfg st t candle s15).trades = st.trades ++ [c] ∧
        c.entry_time = t.entry_time ∧ c.entry_price = t.entry_price ∧
        c.position_size = t.position_size ∧
        c.pnl = (c.entry_price - c.exit_price) * (c.position_size : ℚ) * cfg.lot_size) := by
  refine ⟨rfl, rfl, ?_, ?_⟩
  · intro h1 h2 h3 c hc
    rw [show (close_trade cfg st t p time r).trades =
      st.trades ++ [⟨t.entry_time, t.entry_price, t.position_size, time, p, r,
        (t.entry_price - p) * (t.position_size : ℚ) * cfg.lot_size⟩] from rfl,
      List.getLast?_concat] at hc
    cases hc
    show 0 < (t.entry_price - p) * (t.position_size : ℚ) * cfg.lot_size
    have hq : (0 : ℚ) < (t.position_size : ℚ) := by exact_mod_cast h2
    have := sub_pos.2 h1
    positivity
  · intro candle s15 hflat
    unfold manage_trade at hflat ⊢
    split_ifs at hflat ⊢
    all_goals try cases hflat
    all_goals exact ⟨_, rfl, rfl, rfl, rfl, rfl⟩

/-- Witness for `close_trade_spec`: a short from 45000 closed at 44900 with
one lot of size 15 yields `pnl = 1500 > 0` and a flat engine. -/
theorem close_trade_spec_witness :
    (close_trade ⟨100000, 4/5, 50, 15⟩ ⟨[], none⟩ ⟨0, 45000, 1, 45050, 44950, false⟩
      44900 10 "Stop-Loss Hit").open_trade = none ∧
    0 < (⟨0, 45000, 1, 10, 44900, "Stop-Loss Hit", 1500⟩ : ClosedTrade).pnl := by
  constructor
  · exact (close_trade_spec ⟨100000, 4/5, 50, 15⟩ ⟨[], none⟩ ⟨0, 45000, 1, 45050, 44950, false⟩
      44900 10 "Stop-Loss Hit").1
  · refine (close_trade_spec ⟨100000, 4/5, 50, 15⟩ ⟨[], none⟩ ⟨0, 45000, 1, 45050, 44950, false⟩
      44900 10 "Stop-Loss Hit").2.2.1 (by norm_num) (by norm_num) (by norm_num) _ ?_
    rw [(close_trade_spec ⟨100000, 4/5, 50, 15⟩ ⟨[], none⟩ ⟨0, 45000, 1, 45050, 44950, false⟩
      44900 10 "Stop-Loss Hit").2.1]
    simp only [List.nil_append, List.getLast?_singleton, Option.some.injEq, ClosedTrade.mk.injEq]
    norm_num

/-! ## C9 — breakeven invariant -/

/-- C9: (1) when a candle arms the breakeven adjustment (low reaches
`breakeven_price`, not yet armed, stop not hit this step), the stop moves to
the entry price and the trade stays open through the arming — the only way
it can close on that same candle is the subsequent reverse-swing exit at the
candle close, never the old stop; (2) once armed with `sl_price =
entry_price`, `_manage_trade` passes the open trade through completely
unchanged (so the stop never reverts, inductively over the run); (3) a
stop-out after arming exits exactly at the entry price with `pnl = 0`. -/
theorem breakeven_spec (cfg : Config) (st : EngineState) (t : OpenTrade)
    (candle : Row5) (s15 : List Candle) :
    (t.sl_at_breakeven = false → candle.high < t.sl_price → candle.low ≤ t.breakeven_price →
      (check_exit_signal s15 = false →
        manage_trade cfg st t candle s15 =
          { st with open_trade := some { t with sl_price := t.entry_price, sl_at_breakeven := true } }) ∧
      (check_exit_signal s15 = true →
        (manage_trade cfg st t candle s15).open_trade = none ∧
        (manage_trade cfg st t candle s15).trades = st.trades ++
          [⟨t.entry_time, t.entry_price, t.position_size, candle.ts, candle.close,
            "Reverse Swing Exit",
            (t.entry_price - candle.close) * (t.position_size : ℚ) * cfg.lot_size⟩])) ∧
    (t.sl_at_breakeven = true → t.sl_price = t.entry_price →
      ∀ t', (manage_trade cfg st t candle s15).open_trade = some t' → t' = t) ∧
    (t.sl_at_breakeven = true → t.sl_price = t.entry_price → t.sl_price ≤ candle.high →
      (manage_trade cfg st t candle s15).open_trade = none ∧
      (manage_trade cfg st t candle s15).trades = st.trades ++
        [⟨t.entry_time, t.entry_price, t.position_size, candle.ts, t.entry_price,
          "Stop-Loss Hit", 0⟩]) := by
  refine ⟨?_, ?_, ?_⟩
  · intro harm hstop hlow
    have hnstop : ¬ t.sl_price ≤ candle.high := not_le.2 hstop
    have harmb : (!t.sl_at_breakeven && decide (candle.low ≤ t.breakeven_price)) = true := by
      rw [harm]
      simp [hlow]
    constructor
    · intro hexit
      unfold manage_trade
      rw [if_neg hnstop]
      simp only [harmb, if_true, hexit]
      rfl
    · intro hexit
      unfold manage_trade
      rw [if_neg hnstop]
      simp only [harmb, if_true, hexit]
      exact ⟨rfl, rfl⟩
  · intro harm hsl t' ht'
    have harmb : (!t.sl_at_breakeven && decide (candle.low ≤ t.breakeven_price)) = false := by
      rw [harm]
      simp
    unfold manage_trade at ht'
    simp only [harmb, Bool.false_eq_true, if_false] at ht'
    split_ifs at ht'
    · cases ht'
    · cases ht'
    · exact (Option.some_injective _ ht').symm
  · intro harm hsl hstop
    unfold manage_trade
    rw [if_pos hstop]
    refine ⟨rfl, ?_⟩
    show st.trades ++ [⟨t.entry_time, t.entry_price, t.position_size, candle.ts, t.sl_price,
      "Stop-Loss Hit", (t.entry_price - t.sl_price) * (t.position_size : ℚ) * cfg.lot_size⟩] = _
    rw [hsl]
    simp

/-- Witness for `breakeven_spec` at the spec's example scenario 4: entry
45000, `sl_points = 50`, a candle with low 44940 arms breakeven and the
trade remains open with the stop moved to 45000. -/
theorem breakeven_spec_witness :
    manage_trade ⟨100000, 4/5, 50, 15⟩ ⟨[], some ⟨0, 45000, 1, 45050, 44950, false⟩⟩
        ⟨0, 45000, 1, 45050, 44950, false⟩ ⟨10, 45000, 44940, 44960, none⟩ [] =
      ⟨[], some ⟨0, 45000, 1, 45000, 44950, true⟩⟩ := by
  have h := ((breakeven_spec ⟨100000, 4/5, 50, 15⟩ ⟨[], some ⟨0, 45000, 1, 45050, 44950, false⟩⟩
      ⟨0, 45000, 1, 45050, 44950, false⟩ ⟨10, 45000, 44940, 44960, none⟩ []).1 rfl
      (by norm_num) (by norm_num)).1 rfl
  exact h

/-! ## C10 — trades never overlap -/

/-- Loop invariant for `Backtester.run`: the closed-trade log is
chronologically disjoint (each trade's exit strictly precedes the next
trade's entry), every recorded exit is at or before the last processed
timestamp `b`, and any open trade was entered at or before `b`, strictly
after every recorded exit. -/
def TradeOrdered (b : ℕ) (st : EngineState) : Prop :=
  List.Chain' (fun a c => a.exit_time < c.entry_time) st.trades ∧
  (∀ c ∈ st.trades, c.exit_time ≤ b) ∧
  (∀ t, st.open_trade = some t → t.entry_time ≤ b ∧ ∀ c ∈ st.trades, c.exit_time < t.entry_time)

theorem TradeOrdered_close_trade (bnew : ℕ) (cfg : Config) (st : EngineState)
    (t : OpenTrade) (p : ℚ) (time : ℕ) (r : String)
    (hchain : List.Chain' (fun a c => a.exit_time < c.entry_time) st.trades)
    (hstrict : ∀ x ∈ st.trades, x.exit_time < t.entry_time)
    (hexit : ∀ x ∈ st.trades, x.exit_time ≤ bnew) (htime : time ≤ bnew) :
    TradeOrdered bnew (close_trade cfg st t p time r) := by
  refine ⟨?_, ?_, ?_⟩
  · rw [show (close_trade cfg st t p time r).trades = st.trades ++
      [⟨t.entry_time, t.entry_price, t.position_size, time, p, r,
        (t.entry_price - p) * (t.position_size : ℚ) * cfg.lot_size⟩] from rfl,
      List.chain'_append]
    refine ⟨hchain, List.chain'_singleton _, ?_⟩
    intro x hx y hy
    simp only [List.head?_cons, Option.mem_def, Option.some.injEq] at hy
    subst hy
    exact hstrict x (List.mem_of_mem_getLast? hx)
  · intro c hc
    rcases List.mem_append.1 hc with h | h
    · exact hexit c h
    · rcases List.mem_singleton.1 h with rfl
      exact htime
  · intro t' ht'
    cases ht'

theorem getD_take_last (rows : List Row5) (i : ℕ) (h : i < rows.length) :
    (rows.take (i + 1)).getD ((rows.take (i + 1)).length - 1) rdflt = rows.getD i rdflt := by
  have hlen : (rows.take (i + 1)).length = i + 1 := by
    rw [List.length_take]
    omega
  rw [hlen, Nat.add_sub_cancel, List.getD_eq_getElem?_getD, List.getD_eq_getElem?_getD,
    List.getElem?_take, if_pos (Nat.lt_succ_self i)]

theorem stepAt_preserves (cfg : Config) (rows : List Row5) (df15 : List Candle)
    (aligned : List (ℕ × Option ℚ)) (i b : ℕ) (st : EngineState)
    (hilen : i < rows.length) (hInv : TradeOrdered b st)
    (hb : b < (rows.getD i rdflt).ts) :
    TradeOrdered (rows.getD i rdflt).ts (stepAt cfg rows df15 aligned i st) := by
  obtain ⟨hchain, hexit, hopen⟩ := hInv
  cases hst : st.open_trade with
  | some t =>
    obtain ⟨htb, hstrict⟩ := hopen t hst
    have hexit' : ∀ x ∈ st.trades, x.exit_time ≤ (rows.getD i rdflt).ts :=
      fun x hx => le_trans (hexit x hx) (le_of_lt hb)
    simp only [stepAt, hst]
    unfold manage_trade
    split_ifs with h1 h2 h3
    · exact TradeOrdered_close_trade _ cfg st t _ _ _ hchain hstrict hexit' (le_refl _)
    · exact TradeOrdered_close_trade _ cfg st _ _ _ _ hchain hstrict hexit' (le_refl _)
    · refine ⟨hchain, hexit', ?_⟩
      intro t' ht'
      cases ht'
      exact ⟨le_trans htb (le_of_lt hb), hstrict⟩
    · exact TradeOrdered_close_trade _ cfg st t _ _ _ hchain hstrict hexit' (le_refl _)
    · refine ⟨hchain, hexit', ?_⟩
      intro t' ht'
      cases ht'
      exact ⟨le_trans htb (le_of_lt hb), hstrict⟩
  | none =>
    have hexit' : ∀ x ∈ st.trades, x.exit_time ≤ (rows.getD i rdflt).ts :=
      fun x hx => le_trans (hexit x hx) (le_of_lt hb)
    simp only [stepAt, hst, check_for_entry]
    split_ifs with hsig
    · simp only [execute_trade]
      split_ifs with hzero
      · refine ⟨hchain, hexit', ?_⟩
        intro t' ht'
        cases ht'
      · refine ⟨hchain, hexit', ?_⟩
        intro t' ht'
        cases ht'
        rw [getD_take_last rows i hilen]
        exact ⟨le_refl _, fun c hc => lt_of_le_of_lt (hexit c hc) hb⟩
    · refine ⟨hchain, hexit', ?_⟩
      intro t' ht'
      rw [hst] at ht'
      cases ht' 

theorem loop_inv (cfg : Config) (rows : List Row5) (df15 : List Candle)
    (aligned : List (ℕ × Option ℚ)) (is : List ℕ) :
    ∀ (b : ℕ) (st : EngineState),
      (∀ i ∈ is, i < rows.length) → TradeOrdered b st →
      List.Chain (· < ·) b (is.map (fun i => (rows.getD i rdflt).ts)) →
      ∃ b2, TradeOrdered b2
        (is.foldl (fun s i => stepAt cfg rows df15 aligned i s) st) := by
  induction is with
  | nil => exact fun b st _ hInv _ => ⟨b, hInv⟩
  | cons i is ih =>
    intro b st hlt hInv hchain
    rw [List.map_cons] at hchain
    cases hchain with
    | cons hb hrest =>
      exact ih _ _ (fun j hj => hlt j (List.mem_cons_of_mem i hj))
        (stepAt_preserves cfg rows df15 aligned i b st (hlt i (List.mem_cons_self i is)) hInv hb)
        hrest

theorem chain_ts (rows : List Row5)
    (hadj : ∀ j, j + 1 < rows.length →
      (rows.getD j rdflt).ts < (rows.getD (j + 1) rdflt).ts) :
    ∀ (k s : ℕ), 1 ≤ s → s + k ≤ rows.length →
      List.Chain (· < ·) ((rows.getD (s - 1) rdflt).ts)
        ((List.range' s k).map (fun i => (rows.getD i rdflt).ts)) := by
  intro k
  induction k with
  | zero => exact fun s _ _ => List.Chain.nil
  | succ k ih =>
    intro s hs hk
    rw [show List.range' s (k + 1) = s :: List.range' (s + 1) k from rfl, List.map_cons]
    refine List.Chain.cons ?_ ?_
    · have h := hadj (s - 1) (by omega)
      rwa [show s - 1 + 1 = s by omega] at h
    · have h := ih (s + 1) (by omega) (by omega)
      rwa [show s + 1 - 1 = s by omega] at h

/-- C10: on a lower-timeframe series with strictly increasing timestamps the
engine's loop produces a closed-trade log in which each trade's `entry_time`
strictly exceeds the previous trade's `exit_time`; moreover each step either
manages the open trade (leaving it open unchanged in entry data, or closing
it — never replacing it with a new one) or, when flat, only checks for an
entry (never touching the closed-trade log). -/
theorem trades_no_overlap (cfg : Config) (rows : List Row5) (df15 : List Candle)
    (aligned : List (ℕ × Option ℚ))
    (hts : ∀ j, j + 1 < rows.length →
      (rows.getD j rdflt).ts < (rows.getD (j + 1) rdflt).ts) :
    List.Chain' (fun a c => a.exit_time < c.entry_time)
      (runLoop cfg rows df15 aligned).trades ∧
    (∀ i st t, st.open_trade = some t →
      (stepAt cfg rows df15 aligned i st).open_trade = none ∨
      ∃ t', (stepAt cfg rows df15 aligned i st).open_trade = some t' ∧
        t'.entry_time = t.entry_time ∧ t'.entry_price = t.entry_price) ∧
    (∀ i st, st.open_trade = none →
      (stepAt cfg rows df15 aligned i st).trades = st.trades) := by
  refine ⟨?_, ?_, ?_⟩
  · unfold runLoop
    by_cases hlen : rows.length ≤ 1
    · rw [show rows.length - 1 = 0 by omega]
      exact List.chain'_nil
    · have hInit : TradeOrdered ((rows.getD 0 rdflt).ts) ⟨[], none⟩ := by
        refine ⟨List.chain'_nil, ?_, ?_⟩
        · intro c hc
          cases hc
        · intro t ht
          cases ht
      have hchain := chain_ts rows hts (rows.length - 1) 1 (le_refl 1) (by omega)
      have hmem : ∀ i ∈ List.range' 1 (rows.length - 1), i < rows.length := by
        intro i hi
        have := List.mem_range'_1.1 hi
        omega
      obtain ⟨b2, hInv⟩ := loop_inv cfg rows df15 aligned (List.range' 1 (rows.length - 1))
        ((rows.getD 0 rdflt).ts) ⟨[], none⟩ hmem hInit hchain
      exact hInv.1
  · intro i st t hst
    simp only [stepAt, hst]
    unfold manage_trade
    split_ifs with h1 h2 h3
    · exact Or.inl rfl
    · exact Or.inl rfl
    · exact Or.inr ⟨_, rfl, rfl, rfl⟩
    · exact Or.inl rfl
    · exact Or.inr ⟨_, rfl, rfl, rfl⟩
  · intro i st hst
    simp only [stepAt, hst, check_for_entry, execute_trade]
    split_ifs <;> rfl

/-- Witness for `trades_no_overlap` on a two-candle series with no signal
(undefined VWAP): the log stays empty and trivially ordered. -/
theorem trades_no_overlap_witness :
    List.Chain' (fun a c => a.exit_time < c.entry_time)
      (runLoop ⟨100000, 4/5, 50, 15⟩ [⟨0, 1, 1, 1, none⟩, ⟨5, 1, 1, 1, none⟩] [] []).trades :=
  (trades_no_overlap ⟨100000, 4/5, 50, 15⟩ [⟨0, 1, 1, 1, none⟩, ⟨5, 1, 1, 1, none⟩] [] []
    (by intro j hj
        have hj0 : j = 0 := by
          simp at hj
          omega
        subst hj0
        decide)).1
